import Mathlib

/-!
Verification of the settings application's resolution and schema engine.

The source (src/index.js, src/unnamed/part_000) is a JavaScript settings
editor.  This file gives a shallow embedding of its pure core:

* `Value` models the JavaScript values that can appear in a configuration
  tree (the "undefined" sentinel, `null`, booleans, numbers, strings,
  arrays, and plain objects).  Objects are association lists of string
  keys; numeric literals are modelled as integers since the program does
  no arithmetic on them.  Own-property semantics is modelled; prototype
  properties (such as `toString` or `length`) are outside the data model.
* `resolve` embeds the source's dot-path reader, including the shallow
  copy of the tree, the exception on indexing `undefined`/`null` (caught
  and turned into the fallback), and the `undefined` sentinel check.
* `deepmerge` embeds the npm `deepmerge` library with default options as
  invoked by the source (`merge(state.settings, object)`): plain objects
  merge key by key recursively, arrays concatenate, type mismatches and
  non-mergeable values clone the source.  Cloning is the identity on our
  immutable values.  The case of a scalar merge source never arises from
  `resolveNewSetting` (the skeleton is always an object) and is modelled
  up to the library's degenerate behaviour on non-string scalars.
* `resolveNewSetting`, `resolveValue`, the hyperapp view state and its
  `update` / `save` actions, and the field dispatch table follow the
  corresponding source functions.
-/

namespace Settings

/-- JavaScript-style values forming the configuration trees of the
program.  `undefined` is the "undefined" sentinel. -/
inductive Value where
  | undefined : Value
  | null : Value
  | bool (b : Bool) : Value
  | num (n : Int) : Value
  | str (s : String) : Value
  | arr (elems : List Value) : Value
  | obj (props : List (String × Value)) : Value

/-- First-match association-list lookup, the model of reading an own
property of a JavaScript object. -/
def lookupKey {α : Type} : List (String × α) → String → Option α
  | [], _ => none
  | (k', v) :: rest, k => if k' = k then some v else lookupKey rest k

/-- Index/value pairs of an array, starting at index `i`: the own
enumerable properties of a JavaScript array. -/
def indexPairsFrom (i : Nat) : List Value → List (String × Value)
  | [] => []
  | v :: vs => (toString i, v) :: indexPairsFrom (i + 1) vs

/-- The own enumerable (string-keyed) properties of a value: object keys,
array indices, string character indices; scalars have none. -/
def asProps : Value → List (String × Value)
  | .obj ps => ps
  | .arr xs => indexPairsFrom 0 xs
  | .str s => indexPairsFrom 0 (s.data.map fun c => .str (String.mk [c]))
  | _ => []

/-- One step of the `reduce` in the source's `resolve`: `result[key]`.
Indexing `undefined` or `null` throws; any other value yields the
property or the `undefined` sentinel. -/
def getProp : Value → String → Except Unit Value
  | .undefined, _ => .error ()
  | .null, _ => .error ()
  | v, k => .ok ((lookupKey (asProps v) k).getD .undefined)

/-- `Object.assign({}, tree)`: a fresh plain object holding the tree's
own enumerable properties (`{}` for `undefined`/`null`/scalars). -/
def shallowCopy (v : Value) : Value := .obj (asProps v)

/-- `key.split(/\./g)` on the character list: splitting on `.` always
yields at least one (possibly empty) segment. -/
def splitChars : List Char → List (List Char)
  | [] => [[]]
  | c :: cs =>
    match splitChars cs with
    | [] => [[c]]
    | s :: rest => if c = '.' then [] :: s :: rest else (c :: s) :: rest

/-- `key.split(/\./g)`. -/
def splitDots (s : String) : List String :=
  (splitChars s.data).map fun cs => String.mk cs

/-- The walk of the source's `reduce((result, key) => result[key], ...)`,
propagating the exception. -/
def walk : Value → List String → Except Unit Value
  | v, [] => .ok v
  | v, k :: rest =>
    match getProp v k with
    | .ok w => walk w rest
    | .error e => .error e

/-- The source's `resolve(tree, key, defaultValue)`: split the key on
dots, walk from a shallow copy of the tree, catch any exception and map
the `undefined` sentinel to the fallback. -/
def resolve (tree : Value) (key : String) (defaultValue : Value) : Value :=
  match walk (shallowCopy tree) (splitDots key) with
  | .ok .undefined => defaultValue
  | .ok v => v
  | .error _ => defaultValue

/-- The source's `resolveSetting(settings, defaults)(key)`. -/
def resolveSetting (settings defaults : Value) (key : String) : Value :=
  resolve settings key (resolve defaults key .undefined)

/-- The source's `resolveValue(key, value)`: the one-entry per-path
coercion table.  The boolean-valued path stores `value === 'true'`;
every other path is the identity. -/
def resolveValue (key : String) (value : Value) : Value :=
  if key = "desktop.iconview.enabled" then
    match value with
    | .str s => if s = "true" then .bool true else .bool false
    | _ => .bool false
  else value

/-- The skeleton-building loop of `resolveNewSetting`: a single-branch
object with `leaf` at the end of the segment chain (`{}` for the
unreachable zero-segment case, as the source loop would produce). -/
def pathSkeleton (leaf : Value) : List String → Value
  | [] => .obj []
  | [k] => .obj [(k, leaf)]
  | k :: k' :: rest => .obj [(k, pathSkeleton leaf (k' :: rest))]

/-- `deepmerge`'s mergeability test: only plain objects and arrays merge. -/
def isMergeableObject : Value → Bool
  | .obj _ => true
  | .arr _ => true
  | _ => false

/-- `deepmerge`'s `propertyIsOnObject(target, key)`. -/
def hasProp (v : Value) (k : String) : Bool :=
  (lookupKey (asProps v) k).isSome

/-- `target[key]` where the property is read during a merge. -/
def getAt (v : Value) (k : String) : Value :=
  (lookupKey (asProps v) k).getD .undefined

/-- The keys `mergeObject` seeds its destination with: the target's own
pairs when the target is a mergeable plain object, nothing otherwise. -/
def startProps : Value → List (String × Value)
  | .obj ps => ps
  | _ => []

/-- Property assignment `destination[k] = v`: replace the first binding
of `k` in place, or append a new binding. -/
def setKey {α : Type} (ps : List (String × α)) (k : String) (v : α) :
    List (String × α) :=
  match ps with
  | [] => [(k, v)]
  | (k', v') :: rest => if k' = k then (k, v) :: rest else (k', v') :: setKey rest k v

mutual

/-- The npm `deepmerge(target, source)` with default options: arrays
concatenate, objects merge key by key, a type mismatch (array vs
non-array) clones the source, and a non-mergeable source degenerates to
an object holding the target's pairs.  Cloning is the identity here. -/
def deepmerge (target source : Value) : Value :=
  match source, target with
  | .arr ss, .arr ts => .arr (ts ++ ss)
  | .arr ss, _ => .arr ss
  | .obj sps, .arr _ => .obj sps
  | .obj sps, t => .obj (mergePairs t (startProps t) sps)
  | s, .arr _ => s
  | _, t => .obj (startProps t)
termination_by sizeOf source

/-- The source-key loop of `deepmerge`'s `mergeObject`: for each source
pair, recursively merge when the target also owns the key and the source
value is mergeable, otherwise assign the (cloned) source value. -/
def mergePairs (t : Value) (dest src : List (String × Value)) :
    List (String × Value) :=
  match src with
  | [] => dest
  | (k, sv) :: rest =>
    mergePairs t
      (setKey dest k
        (if hasProp t k && isMergeableObject sv then deepmerge (getAt t k) sv else sv))
      rest
termination_by sizeOf src

end

/-- The source's `resolveNewSetting` on the settings tree: build the
single-branch skeleton holding the coerced value and deep-merge it onto
the previous tree. -/
def resolveNewSetting (settings : Value) (key : String) (value : Value) : Value :=
  deepmerge settings (pathSkeleton (resolveValue key value) (splitDots key))

/-- Recursive descent reading of a segment list in a tree, used as the
independent notion of "the value stored at a path": objects are read by
key, arrays by canonical index, strings by character index; the walk
stops (absent) on `undefined`, `null`, scalars, and missing keys. -/
def valueAt : Value → List String → Option Value
  | v, [] => some v
  | .undefined, _ :: _ => none
  | .null, _ :: _ => none
  | v, k :: rest =>
    match lookupKey (asProps v) k with
    | some w => valueAt w rest
    | none => none

/-- A walk that traverses plain objects only: every intermediate node is
a mapping.  This is the spec's picture of a key path in a ConfigTree. -/
def objWalk : Value → List String → Option Value
  | v, [] => some v
  | .obj ps, k :: rest =>
    match lookupKey ps k with
    | some w => objWalk w rest
    | none => none
  | _, _ :: _ => none

/-- The hyperapp view state built in `renderWindow`.  `locales`,
`themes` and `defaults` are opaque snapshots of collaborator data. -/
structure ViewState where
  loading : Bool
  locales : Value
  themes : Value
  defaults : Value
  settings : Value

/-- `actions.update({path, value})`: hyperapp merges the returned
`{settings}` partial state into the state, replacing only `settings`. -/
def update (st : ViewState) (path : String) (value : Value) : ViewState :=
  { st with settings := resolveNewSetting st.settings path value }

/-- The synchronous part of `actions.save`: return unchanged when
`loading` is set, otherwise set `loading` and invoke the persistence
collaborator's set-and-flush (`setSettings`).  The boolean records
whether the persistence call was made. -/
def save (st : ViewState) : ViewState × Bool :=
  if st.loading then (st, false)
  else ({ st with loading := true }, true)

/-- The `.then` continuation of `actions.save`: clear `loading` (and
notify `desktopService.applySettings()`, a collaborator side effect). -/
def saveFulfilled (st : ViewState) : ViewState :=
  { st with loading := false }

/-- The `.catch` continuation of `actions.save`: clear `loading` and
log the error; the working tree is untouched. -/
def saveRejected (st : ViewState) : ViewState :=
  { st with loading := false }

/-- The three control-construction strategies of `fieldMap`. -/
inductive FieldStrategy where
  | select : FieldStrategy
  | dialog : FieldStrategy
  | fallback : FieldStrategy
deriving DecidableEq

/-- The `fieldMap` lookup table keyed by an item's declared kind. -/
def fieldMap : List (String × FieldStrategy) :=
  [("select", .select), ("dialog", .dialog), ("fallback", .fallback)]

/-- `fields[props.type] || fields.fallback`: dispatch an item's declared
kind to a strategy, falling back to the free-text strategy. -/
def dispatchField (kind : String) : FieldStrategy :=
  (lookupKey fieldMap kind).getD .fallback

/-- The defined outcome of an exception walk: `none` when the walk threw
or ended in the `undefined` sentinel. -/
def definedResult : Except Unit Value → Option Value
  | .ok .undefined => none
  | .ok v => some v
  | .error _ => none

/-- The defined outcome of a descent: `none` when absent or the sentinel. -/
def definedOpt : Option Value → Option Value
  | some .undefined => none
  | some v => some v
  | none => none

/- ### Lemmas -/

theorem splitChars_ne_nil (cs : List Char) : splitChars cs ≠ [] := by
  cases cs with
  | nil => simp [splitChars]
  | cons c cs =>
    simp only [splitChars]
    cases h : splitChars cs with
    | nil => simp
    | cons s rest =>
      by_cases hc : c = '.' <;> simp [hc]

theorem splitDots_ne_nil (s : String) : splitDots s ≠ [] := by
  simp [splitDots, splitChars_ne_nil]

theorem lookupKey_setKey_self {α : Type} (ps : List (String × α)) (k : String) (v : α) :
    lookupKey (setKey ps k v) k = some v := by
  induction ps with
  | nil => simp [setKey, lookupKey]
  | cons p rest ih =>
    obtain ⟨k', v'⟩ := p
    by_cases h : k' = k <;> simp [setKey, lookupKey, h, ih]

theorem lookupKey_setKey_ne {α : Type} (ps : List (String × α)) {k q : String}
    (h : k ≠ q) (v : α) : lookupKey (setKey ps k v) q = lookupKey ps q := by
  induction ps with
  | nil => simp [setKey, lookupKey, h]
  | cons p rest ih =>
    obtain ⟨k', v'⟩ := p
    by_cases h1 : k' = k
    · subst h1
      simp [setKey, lookupKey, h]
    · by_cases h2 : k' = q <;> simp [setKey, lookupKey, h1, h2, ih, Ne.symm h]

theorem lookupKey_eq_none {α : Type} (ps : List (String × α)) (k : String)
    (h : k ∉ ps.map Prod.fst) : lookupKey ps k = none := by
  induction ps with
  | nil => simp [lookupKey]
  | cons p rest ih =>
    obtain ⟨k', v'⟩ := p
    simp only [List.map_cons, List.mem_cons] at h
    push_neg at h
    have hk : k' ≠ k := fun h' => h.1 h'.symm
    simp [lookupKey, hk, ih h.2]

theorem walk_from_undefined (segs : List String) :
    definedResult (walk Value.undefined segs) = none := by
  cases segs with
  | nil => simp [walk, definedResult]
  | cons k rest => simp [walk, getProp, definedResult]

theorem walk_defined (segs : List String) (v : Value) :
    definedResult (walk v segs) = definedOpt (valueAt v segs) := by
  induction segs generalizing v with
  | nil => cases v <;> simp [walk, valueAt, definedResult, definedOpt]
  | cons k rest ih =>
    cases v with
    | undefined => simp [walk, getProp, valueAt, definedResult, definedOpt]
    | null => simp [walk, getProp, valueAt, definedResult, definedOpt]
    | bool b =>
      simp [walk, getProp, valueAt, asProps, lookupKey, definedOpt, walk_from_undefined]
    | num n =>
      simp [walk, getProp, valueAt, asProps, lookupKey, definedOpt, walk_from_undefined]
    | str s =>
      simp only [walk, getProp, valueAt]
      cases h : lookupKey (asProps (Value.str s)) k with
      | none => simp [h, definedOpt, walk_from_undefined]
      | some w => simp [h, ih]
    | arr xs =>
      simp only [walk, getProp, valueAt]
      cases h : lookupKey (asProps (Value.arr xs)) k with
      | none => simp [h, definedOpt, walk_from_undefined]
      | some w => simp [h, ih]
    | obj ps =>
      simp only [walk, getProp, valueAt]
      cases h : lookupKey (asProps (Value.obj ps)) k with
      | none => simp [h, definedOpt, walk_from_undefined]
      | some w => simp [h, ih]

theorem valueAt_shallowCopy (T : Value) (k : String) (rest : List String) :
    valueAt (shallowCopy T) (k :: rest) = valueAt T (k :: rest) := by
  cases T <;> simp [shallowCopy, valueAt, asProps, lookupKey]

theorem resolve_eq_getD (T : Value) (P : String) (f : Value) :
    resolve T P f =
      (definedResult (walk (shallowCopy T) (splitDots P))).getD f := by
  unfold resolve
  cases hw : walk (shallowCopy T) (splitDots P) with
  | error e => simp [definedResult]
  | ok w => cases w <;> simp [definedResult]

theorem definedOpt_getD (o : Option Value) (f : Value) :
    (match o with
     | some Value.undefined => f
     | some v => v
     | none => f) = (definedOpt o).getD f := by
  cases o with
  | none => simp [definedOpt]
  | some w => cases w <;> simp [definedOpt]

/-- The reading characterisation of `resolve`: it returns the value the
recursive descent finds, or the fallback on absence or the sentinel. -/
theorem resolve_eq_valueAt (T : Value) (P : String) (f : Value) :
    resolve T P f =
      (match valueAt T (splitDots P) with
       | some .undefined => f
       | some v => v
       | none => f) := by
  obtain ⟨k, rest, hsegs⟩ := List.exists_cons_of_ne_nil (splitDots_ne_nil P)
  rw [resolve_eq_getD, definedOpt_getD, walk_defined, hsegs, valueAt_shallowCopy]

theorem isMergeableObject_pathSkeleton (leaf : Value) (segs : List String) :
    isMergeableObject (pathSkeleton leaf segs) = true := by
  cases segs with
  | nil => simp [pathSkeleton, isMergeableObject]
  | cons k rest => cases rest <;> simp [pathSkeleton, isMergeableObject]

theorem valueAt_pathSkeleton (leaf : Value) :
    ∀ segs : List String, segs ≠ [] →
      valueAt (pathSkeleton leaf segs) segs = some leaf
  | [], h => absurd rfl h
  | [k], _ => by simp [pathSkeleton, valueAt, asProps, lookupKey]
  | k :: k' :: rest, _ => by
    simp only [pathSkeleton, valueAt, asProps, lookupKey, if_pos rfl]
    exact valueAt_pathSkeleton leaf (k' :: rest) (by simp)

/-- Writing a non-mergeable value at a path and reading the same path
back finds exactly that value, whatever the prior tree. -/
theorem valueAt_merge_skeleton (leaf : Value)
    (hleaf : isMergeableObject leaf = false) :
    ∀ (segs : List String) (t : Value), segs ≠ [] →
      valueAt (deepmerge t (pathSkeleton leaf segs)) segs = some leaf
  | [], _, h => absurd rfl h
  | [k], t, _ => by
    cases t <;>
      simp [pathSkeleton, deepmerge, mergePairs, hleaf, valueAt, asProps,
        lookupKey, lookupKey_setKey_self, setKey, startProps]
  | k :: k' :: rest, t, _ => by
    have hne : (k' :: rest : List String) ≠ [] := by simp
    have hsk := isMergeableObject_pathSkeleton leaf (k' :: rest)
    have h1 := valueAt_pathSkeleton leaf (k' :: rest) hne
    have hrec : ∀ w : Value,
        valueAt (deepmerge w (pathSkeleton leaf (k' :: rest))) (k' :: rest)
          = some leaf :=
      fun w => valueAt_merge_skeleton leaf hleaf (k' :: rest) w hne
    cases hhp : hasProp t k <;> cases t <;>
      simp [pathSkeleton, deepmerge, mergePairs, hsk, hhp, valueAt, asProps,
        lookupKey, lookupKey_setKey_self, setKey, startProps, h1, hrec]

/-- Round-trip core: after `deepmerge` of a skeleton carrying a scalar
(non-mergeable, defined) leaf, `resolve` of the written path yields the
leaf. -/
theorem resolve_merge_skeleton (T : Value) (P : String) (leaf f : Value)
    (hleaf : isMergeableObject leaf = false) (hdef : leaf ≠ .undefined) :
    resolve (deepmerge T (pathSkeleton leaf (splitDots P))) P f = leaf := by
  rw [resolve_eq_valueAt,
    valueAt_merge_skeleton leaf hleaf (splitDots P) T (splitDots_ne_nil P)]
  cases leaf <;> simp_all

theorem valueAt_of_objWalk :
    ∀ (segs : List String) (v x : Value), objWalk v segs = some x →
      valueAt v segs = some x
  | [], v, x, h => by simpa [objWalk, valueAt] using h
  | k :: rest, v, x, h => by
    cases v with
    | obj ps =>
      simp only [objWalk] at h
      cases hl : lookupKey ps k with
      | none => rw [hl] at h; simp at h
      | some w =>
        rw [hl] at h
        simp only [valueAt, asProps, hl]
        exact valueAt_of_objWalk rest w x h
    | undefined => simp [objWalk] at h
    | null => simp [objWalk] at h
    | bool b => simp [objWalk] at h
    | num n => simp [objWalk] at h
    | str s => simp [objWalk] at h
    | arr xs => simp [objWalk] at h

theorem pathSkeleton_cons (W : Value) (k : String) (r : List String) :
    ∃ X : Value, pathSkeleton W (k :: r) = .obj [(k, X)] := by
  cases r with
  | nil => exact ⟨W, by simp [pathSkeleton]⟩
  | cons a b => exact ⟨pathSkeleton W (a :: b), by simp [pathSkeleton]⟩

/-- Frame core: merging a single-branch skeleton along a path disjoint
from an object-walked path leaves the walked value readable unchanged. -/
theorem valueAt_merge_skeleton_disjoint (W : Value) :
    ∀ (segs2 segs1 : List String) (T V2 : Value),
      List.isPrefixOf segs1 segs2 = false →
      List.isPrefixOf segs2 segs1 = false →
      objWalk T segs2 = some V2 →
      valueAt (deepmerge T (pathSkeleton W segs1)) segs2 = some V2
  | [], _, T, V2, _, h2, _ => by simp [List.isPrefixOf] at h2
  | _ :: _, [], T, V2, h1, _, _ => by simp [List.isPrefixOf] at h1
  | k2 :: r2, k1 :: r1, T, V2, h1, h2, hw => by
    cases T with
    | undefined => simp [objWalk] at hw
    | null => simp [objWalk] at hw
    | bool b => simp [objWalk] at hw
    | num n => simp [objWalk] at hw
    | str s => simp [objWalk] at hw
    | arr xs => simp [objWalk] at hw
    | obj ps =>
      simp only [objWalk] at hw
      cases hl : lookupKey ps k2 with
      | none => rw [hl] at hw; simp at hw
      | some w2 =>
        rw [hl] at hw
        by_cases hk : k1 = k2
        · subst hk
          have h1' : List.isPrefixOf r1 r2 = false := by
            simpa [List.isPrefixOf] using h1
          have h2' : List.isPrefixOf r2 r1 = false := by
            simpa [List.isPrefixOf] using h2
          cases r1 with
          | nil => simp [List.isPrefixOf] at h1'
          | cons a b =>
            have hsk := isMergeableObject_pathSkeleton W (a :: b)
            simp only [pathSkeleton, deepmerge, mergePairs, startProps, hasProp,
              getAt, asProps, hl, hsk, Option.isSome_some, Bool.true_and,
              Bool.and_true, Option.getD_some, if_true]
            simp only [valueAt, asProps, lookupKey_setKey_self]
            exact valueAt_merge_skeleton_disjoint W r2 (a :: b) w2 V2 h1' h2' hw
        · obtain ⟨X, hX⟩ := pathSkeleton_cons W k1 r1
          rw [hX]
          simp only [deepmerge, mergePairs, startProps]
          simp only [valueAt, asProps, lookupKey_setKey_ne _ hk, hl]
          exact valueAt_of_objWalk r2 w2 V2 hw

/-- Key-by-key characterisation of the `mergeObject` loop: a key found
in the source is recursively merged (when both sides are mergeable) or
assigned from the source; a key absent from the source is read from the
seeded destination. -/
theorem lookupKey_mergePairs (t : Value) :
    ∀ (src d : List (String × Value)) (k : String),
      (src.map Prod.fst).Nodup →
      lookupKey (mergePairs t d src) k =
        (match lookupKey src k with
         | some sv => some (if hasProp t k && isMergeableObject sv
             then deepmerge (getAt t k) sv else sv)
         | none => lookupKey d k)
  | [], d, k, _ => by simp [mergePairs, lookupKey]
  | (k', sv') :: rest, d, k, hnd => by
    rw [List.map_cons, List.nodup_cons] at hnd
    simp only [mergePairs]
    rw [lookupKey_mergePairs t rest _ k hnd.2]
    by_cases hk : k' = k
    · subst hk
      rw [lookupKey_eq_none rest k' hnd.1]
      simp [lookupKey, lookupKey_setKey_self]
    · cases hr : lookupKey rest k <;>
        simp [lookupKey, hk, hr, lookupKey_setKey_ne _ hk]

/- ### Claims -/

/-- Claim C1: `resolve` is total and correct.  Splitting the path on
dots, it returns the value the recursive descent finds when the path is
present and the value is not the `undefined` sentinel; it returns the
fallback when any segment is absent, the walk reaches a non-traversable
value, or the fully resolved value is the sentinel — for every tree
(including `{}` and deeply nested absence) and every path, with no
faulting case left over. -/
theorem resolve_total_correct (T : Value) (P : String) (f : Value) :
    resolve T P f =
      (match valueAt T (splitDots P) with
       | some .undefined => f
       | some v => v
       | none => f) :=
  resolve_eq_valueAt T P f

/-- Claim C2 as stated is false: writing a mapping value deep-merges it
with the pre-existing subtree instead of replacing it, so reading the
path back yields the merged subtree (`{b: 1}`), not the written value
(`{}`). -/
theorem roundtrip_counterexample :
    resolve
        (resolveNewSetting (Value.obj [("a", Value.obj [("b", Value.num 1)])])
          "a" (Value.obj []))
        "a" (Value.str "FB")
      = Value.obj [("b", Value.num 1)] ∧
    Value.obj [("b", Value.num 1)] ≠ Value.obj [] := by
  constructor
  · simp [resolveNewSetting, splitDots, splitChars, pathSkeleton, resolveValue,
      deepmerge, mergePairs, startProps, hasProp, getAt, asProps, lookupKey,
      setKey, isMergeableObject, resolve, walk, getProp, shallowCopy]
  · simp

/-- Claim C2 amended: the write-then-read round-trip holds whenever the
stored value — `resolveValue P V`, i.e. `V` after the per-path coercion —
is neither a mergeable object/array (those deep-merge with a
pre-existing subtree) nor the `undefined` sentinel: resolving `P` from
`resolveNewSetting(T, P, V)` yields exactly the stored value, for every
tree and every fallback. -/
theorem roundtrip_amended (T : Value) (P : String) (V f : Value)
    (h1 : isMergeableObject (resolveValue P V) = false)
    (h2 : resolveValue P V ≠ Value.undefined) :
    resolve (resolveNewSetting T P V) P f = resolveValue P V :=
  resolve_merge_skeleton T P (resolveValue P V) f h1 h2

/-- Witness for the amended round-trip at a concrete input. -/
theorem roundtrip_amended_witness :
    resolve (resolveNewSetting (Value.obj []) "a.b" (Value.num 5)) "a.b"
        Value.undefined
      = Value.num 5 := by
  have h := roundtrip_amended (Value.obj []) "a.b" (Value.num 5) Value.undefined
    (by simp [resolveValue, isMergeableObject]) (by simp [resolveValue])
  simpa [resolveValue] using h

/-- Claim C3 as stated is false: `a.0` and `a.b` are distinct, disjoint
paths and `a.0` holds the value `5` (an array element), yet writing at
`a.b` replaces the array with an object (array/object type mismatch
clones the source), so `a.0` afterwards falls back. -/
theorem sibling_clobber_counterexample :
    List.isPrefixOf (splitDots "a.b") (splitDots "a.0") = false ∧
    List.isPrefixOf (splitDots "a.0") (splitDots "a.b") = false ∧
    resolve (Value.obj [("a", Value.arr [Value.num 5])]) "a.0" (Value.str "FB")
      = Value.num 5 ∧
    resolve
        (resolveNewSetting (Value.obj [("a", Value.arr [Value.num 5])])
          "a.b" (Value.num 7))
        "a.0" (Value.str "FB")
      = Value.str "FB" ∧
    Value.str "FB" ≠ Value.num 5 := by
  refine ⟨rfl, rfl, rfl, ?_, by simp⟩
  simp [resolveNewSetting, splitDots, splitChars, pathSkeleton, resolveValue,
    deepmerge, mergePairs, startProps, hasProp, getAt, asProps, lookupKey,
    setKey, isMergeableObject, resolve, walk, getProp, shallowCopy,
    indexPairsFrom]

/-- Claim C3 amended: sibling preservation holds for distinct disjoint
paths (neither a dot-prefix of the other) when the preserved path
reaches its pre-existing value through mapping nodes (`objWalk`):
writing any value at `P1` leaves `P2` resolving to its prior value
`V2`. -/
theorem sibling_preservation (T : Value) (P1 P2 : String) (V1 V2 f : Value)
    (hd1 : List.isPrefixOf (splitDots P1) (splitDots P2) = false)
    (hd2 : List.isPrefixOf (splitDots P2) (splitDots P1) = false)
    (hwalk : objWalk T (splitDots P2) = some V2)
    (hdef : V2 ≠ Value.undefined) :
    resolve (resolveNewSetting T P1 V1) P2 f = V2 := by
  have h := valueAt_merge_skeleton_disjoint (resolveValue P1 V1)
    (splitDots P2) (splitDots P1) T V2 hd1 hd2 hwalk
  unfold resolveNewSetting
  rw [resolve_eq_valueAt, h]
  cases V2 <;> simp_all

/-- Witness for sibling preservation at a concrete input. -/
theorem sibling_preservation_witness :
    resolve
        (resolveNewSetting (Value.obj [("a", Value.num 1), ("b", Value.num 2)])
          "a" (Value.num 9))
        "b" Value.undefined
      = Value.num 2 :=
  sibling_preservation (Value.obj [("a", Value.num 1), ("b", Value.num 2)])
    "a" "b" (Value.num 9) (Value.num 2) Value.undefined rfl rfl rfl (by simp)

/-- Claim C4 as stated is false: an array value written over an existing
array is concatenated (target then source) by the default merge, not
replaced wholesale. -/
theorem array_merge_counterexample :
    resolveNewSetting (Value.obj [("a", Value.arr [Value.num 1])]) "a"
        (Value.arr [Value.num 2])
      = Value.obj [("a", Value.arr [Value.num 1, Value.num 2])] ∧
    Value.arr [Value.num 1, Value.num 2] ≠ Value.arr [Value.num 2] := by
  constructor
  · simp [resolveNewSetting, splitDots, splitChars, pathSkeleton, resolveValue,
      deepmerge, mergePairs, startProps, hasProp, getAt, asProps, lookupKey,
      setKey, isMergeableObject]
  · simp

/-- Claim C4 amended: the merge contract as implemented.  Merging two
objects is key-by-key: a key also present in the source is recursively
deep-merged when the source value is mergeable and the target owns the
key, otherwise assigned from the source (scalars replace wholesale); a
key absent from the source keeps the target's value.  Arrays, however,
are concatenated (target then source), not replaced.  The embedding is a
pure function, so the input tree is never mutated. -/
theorem deepmerge_contract (tps sps : List (String × Value)) (k : String)
    (ts ss : List Value) (hnd : (sps.map Prod.fst).Nodup) :
    deepmerge (Value.obj tps) (Value.obj sps)
      = Value.obj (mergePairs (Value.obj tps) tps sps) ∧
    lookupKey (mergePairs (Value.obj tps) tps sps) k
      = (match lookupKey sps k with
         | some sv =>
           some (if hasProp (Value.obj tps) k && isMergeableObject sv
             then deepmerge (getAt (Value.obj tps) k) sv else sv)
         | none => lookupKey tps k) ∧
    deepmerge (Value.arr ts) (Value.arr ss) = Value.arr (ts ++ ss) :=
  ⟨by simp [deepmerge, startProps], lookupKey_mergePairs _ sps tps k hnd,
    by simp [deepmerge]⟩

/-- Witness for the merge contract at concrete inputs. -/
theorem deepmerge_contract_witness :
    lookupKey (mergePairs (Value.obj [("x", Value.num 1)])
        [("x", Value.num 1)] [("y", Value.num 2)]) "y"
      = some (Value.num 2) ∧
    deepmerge (Value.arr [Value.num 1]) (Value.arr [Value.num 2])
      = Value.arr [Value.num 1, Value.num 2] := by
  have h := deepmerge_contract [("x", Value.num 1)] [("y", Value.num 2)] "y"
    [Value.num 1] [Value.num 2] (by simp)
  exact ⟨by simpa [lookupKey, hasProp, asProps, isMergeableObject] using h.2.1,
    by simpa using h.2.2⟩

/-- Claim C5: per-path coercion on update.  The coercion is keyed by
path and defaults to identity; for `desktop.iconview.enabled` the stored
value is the boolean `value === 'true'` — `true` exactly when the
incoming value is the string `"true"`, `false` for every other input
(including the boolean `true` itself) — the updated tree stores exactly
that boolean at the path, and every other path stores the incoming value
unchanged. -/
theorem coercion_spec (key : String) (value : Value) (T f : Value)
    (hk : key ≠ "desktop.iconview.enabled") :
    (resolveValue "desktop.iconview.enabled" value = Value.bool true ↔
      value = Value.str "true") ∧
    (resolveValue "desktop.iconview.enabled" value = Value.bool true ∨
      resolveValue "desktop.iconview.enabled" value = Value.bool false) ∧
    resolveValue "desktop.iconview.enabled" (Value.bool true)
      = Value.bool false ∧
    resolve (resolveNewSetting T "desktop.iconview.enabled" value)
        "desktop.iconview.enabled" f
      = resolveValue "desktop.iconview.enabled" value ∧
    resolveValue key value = value := by
  have hb : ∃ b, resolveValue "desktop.iconview.enabled" value
      = Value.bool b := by
    cases value with
    | str s =>
      by_cases hs : s = "true"
      · exact ⟨true, by simp [resolveValue, hs]⟩
      · exact ⟨false, by simp [resolveValue, hs]⟩
    | undefined => exact ⟨false, by simp [resolveValue]⟩
    | null => exact ⟨false, by simp [resolveValue]⟩
    | bool b => exact ⟨false, by simp [resolveValue]⟩
    | num n => exact ⟨false, by simp [resolveValue]⟩
    | arr xs => exact ⟨false, by simp [resolveValue]⟩
    | obj ps => exact ⟨false, by simp [resolveValue]⟩
  obtain ⟨b, hb⟩ := hb
  refine ⟨?_, ?_, by simp [resolveValue], ?_, by simp [resolveValue, hk]⟩
  · cases value with
    | str s =>
      by_cases hs : s = "true" <;> simp [resolveValue, hs]
    | undefined => simp [resolveValue]
    | null => simp [resolveValue]
    | bool c => simp [resolveValue]
    | num n => simp [resolveValue]
    | arr xs => simp [resolveValue]
    | obj ps => simp [resolveValue]
  · rw [hb]
    cases b <;> simp
  · exact resolve_merge_skeleton T "desktop.iconview.enabled" _ f
      (by rw [hb]; rfl) (by rw [hb]; simp)

/-- Witness for the coercion claim at concrete inputs. -/
theorem coercion_spec_witness :
    resolve
        (resolveNewSetting (Value.obj []) "desktop.iconview.enabled"
          (Value.bool true))
        "desktop.iconview.enabled" Value.undefined
      = Value.bool false ∧
    resolveValue "x" (Value.num 3) = Value.num 3 := by
  have h1 := coercion_spec "x" (Value.bool true) (Value.obj []) Value.undefined
    (by simp)
  have h2 := coercion_spec "x" (Value.num 3) (Value.obj []) Value.undefined
    (by simp)
  exact ⟨by simpa [resolveValue] using h1.2.2.2.1, h2.2.2.2.2⟩

/-- Claim C6: single-flight save guard.  A `save()` while `loading` is a
no-op — the state is unchanged and the persistence set/flush is not
invoked (dropped, not queued); from idle, `save()` moves to saving
(`loading := true`) and invokes persistence; both the fulfilled and the
rejected continuation return the state to idle, so the lifecycle is
idle -> saving -> idle and two saves are never in flight at once. -/
theorem save_single_flight (st stIdle st2 : ViewState)
    (h : st.loading = true) (h2 : stIdle.loading = false) :
    save st = (st, false) ∧
    save stIdle = ({ stIdle with loading := true }, true) ∧
    (saveFulfilled st2).loading = false ∧
    (saveRejected st2).loading = false := by
  refine ⟨?_, ?_, rfl, rfl⟩ <;> simp [save, h, h2]

/-- Witness for the single-flight guard at concrete states. -/
theorem save_single_flight_witness :
    save ⟨true, Value.undefined, Value.undefined, Value.undefined, Value.undefined⟩
      = (⟨true, Value.undefined, Value.undefined, Value.undefined, Value.undefined⟩, false) ∧
    save ⟨false, Value.undefined, Value.undefined, Value.undefined, Value.undefined⟩
      = (⟨true, Value.undefined, Value.undefined, Value.undefined, Value.undefined⟩, true) := by
  have h := save_single_flight
    ⟨true, Value.undefined, Value.undefined, Value.undefined, Value.undefined⟩
    ⟨false, Value.undefined, Value.undefined, Value.undefined, Value.undefined⟩
    ⟨true, Value.undefined, Value.undefined, Value.undefined, Value.undefined⟩ rfl rfl
  exact ⟨h.1, by simpa using h.2.1⟩

/-- Claim C7: save-failure atomicity.  Whenever `save()` proceeds (the
state was not loading) and the persistence call rejects, the rejected
continuation resets `loading` to `false` and the working settings tree
equals the tree before the call — no in-memory edits are discarded; the
persistence call had been made. -/
theorem save_failure_preserves_edits (st : ViewState) (h : st.loading = false) :
    (saveRejected (save st).1).loading = false ∧
    (saveRejected (save st).1).settings = st.settings ∧
    (save st).2 = true := by
  simp [save, saveRejected, h]

/-- Witness for save-failure atomicity at a concrete state. -/
theorem save_failure_preserves_edits_witness :
    (saveRejected
        (save ⟨false, Value.undefined, Value.undefined, Value.undefined, Value.num 7⟩).1).settings
      = Value.num 7 :=
  (save_failure_preserves_edits
    ⟨false, Value.undefined, Value.undefined, Value.undefined, Value.num 7⟩ rfl).2.1

/-- Claim C8: field dispatch is total and falls back to the free-text
strategy.  The registered kinds map to their own strategies and every
other kind string maps to the fallback strategy; no kind faults. -/
theorem dispatch_total_fallback (kind : String) :
    dispatchField kind =
      (if kind = "select" then FieldStrategy.select
       else if kind = "dialog" then FieldStrategy.dialog
       else FieldStrategy.fallback) := by
  by_cases h1 : kind = "select"
  · simp [dispatchField, fieldMap, lookupKey, h1]
  · by_cases h2 : kind = "dialog"
    · simp [dispatchField, fieldMap, lookupKey, h1, h2, Ne.symm h1]
    · by_cases h3 : kind = "fallback"
      · simp [dispatchField, fieldMap, lookupKey, h1, h2, h3]
      · simp [dispatchField, fieldMap, lookupKey, h1, h2, h3,
          Ne.symm h1, Ne.symm h2, Ne.symm h3]

/-- Claim C9 as stated is false: the empty path splits into one
empty-string segment, so `setPath(T, "", V)` writes at the empty-string
key; a pre-existing value at that key path no longer resolves to its
prior value. -/
theorem empty_path_counterexample :
    resolve (Value.obj [("", Value.num 1)]) "" (Value.str "FB")
      = Value.num 1 ∧
    resolve (resolveNewSetting (Value.obj [("", Value.num 1)]) "" (Value.num 2))
        "" (Value.str "FB")
      = Value.num 2 ∧
    Value.num 2 ≠ Value.num 1 := by
  refine ⟨rfl, ?_, by simp⟩
  simp [resolveNewSetting, splitDots, splitChars, pathSkeleton, resolveValue,
    deepmerge, mergePairs, startProps, hasProp, getAt, asProps, lookupKey,
    setKey, isMergeableObject, resolve, walk, getProp, shallowCopy]

/-- Claim C9 amended: writing the empty path touches only the
empty-string key of a mapping tree: every path whose first segment is
non-empty resolves exactly as before the call, so nothing else in the
tree is corrupted. -/
theorem empty_path_amended (ps : List (String × Value)) (V : Value)
    (P : String) (f : Value) (h : (splitDots P).head? ≠ some "") :
    resolve (resolveNewSetting (Value.obj ps) "" V) P f
      = resolve (Value.obj ps) P f := by
  obtain ⟨k, rest, hsegs⟩ := List.exists_cons_of_ne_nil (splitDots_ne_nil P)
  have hk : ("" : String) ≠ k := by
    rw [hsegs] at h
    simp only [List.head?] at h
    intro hc
    exact h (by rw [hc])
  unfold resolveNewSetting
  rw [show splitDots "" = [""] from rfl]
  simp only [pathSkeleton, deepmerge, mergePairs, startProps]
  rw [resolve_eq_valueAt, resolve_eq_valueAt, hsegs]
  simp only [valueAt, asProps, lookupKey_setKey_ne _ hk]

/-- Witness for the empty-path frame property at a concrete input. -/
theorem empty_path_amended_witness :
    resolve (resolveNewSetting (Value.obj [("a", Value.num 1)]) "" (Value.num 9))
        "a" Value.undefined
      = resolve (Value.obj [("a", Value.num 1)]) "a" Value.undefined :=
  empty_path_amended [("a", Value.num 1)] (Value.num 9) "a" Value.undefined
    (by simp [splitDots, splitChars])

/-- Claim C10: the implicit frame of `update`: only the `settings` field
changes — becoming `resolveNewSetting` of the previous settings at the
given path and value — while `loading`, `defaults`, `locales` and
`themes` are exactly as before. -/
theorem update_frame (st : ViewState) (path : String) (value : Value) :
    (update st path value).loading = st.loading ∧
    (update st path value).defaults = st.defaults ∧
    (update st path value).locales = st.locales ∧
    (update st path value).themes = st.themes ∧
    (update st path value).settings = resolveNewSetting st.settings path value :=
  ⟨rfl, rfl, rfl, rfl, rfl⟩

end Settings
